import Mathlib

/-!
Verification of the spinal-cord segmentation post-processing utilities
(`large_cohort_sca_analysis`): label splitters (SCT codes 1/2, SpinePS codes
60/61), the vertebral relabeler, the disc-label range filter, and the CSV
aggregator.

Imaging volumes are shallowly embedded as integer-valued functions on a fixed
finite index grid: a voxel of `Vol nx ny nz` is the value of `np.round(data)`
at that index (the scripts round `get_fdata()` and cast to `int16` before any
comparison, so all label logic is integer logic). NIfTI images carry, besides
the voxel grid, a 4x4 affine and a 3-vector of zooms together with the header
data-type code, which is all the claims need of the header.
-/

set_option autoImplicit false

/-- Integer voxel grid of a 3-D volume, indexed x, y, z (axial slices are the
fibers of the last index, matching `axis=(0, 1)` reductions in the scripts). -/
abbrev Vol (nx ny nz : ℕ) := Fin nx → Fin ny → Fin nz → ℤ

/-- Header data-type codes that occur in the scripts. -/
inductive DType where
  | float64
  | int16
  | int32
  deriving DecidableEq, Repr

/-- NIfTI header: the fields the scripts read or write (voxel zooms and the
on-disk data type). -/
structure Header where
  zooms : Fin 3 → ℚ
  dtype : DType

/-- In-memory NIfTI image: voxel data plus affine and header, as handed around
by `nibabel`. -/
structure Nifti1Image (nx ny nz : ℕ) where
  data : Vol nx ny nz
  affine : Fin 4 → Fin 4 → ℚ
  header : Header

/-- Embedding of `header.set_data_dtype(...)`: mutate only the dtype field. -/
def set_data_dtype (h : Header) (d : DType) : Header :=
  { h with dtype := d }

section Splitter

variable {nx ny nz : ℕ}

/-- Embedding of `np.any(data_int == c, axis=(0, 1))` at axial index `z`:
the slice contains the label `c`. -/
def slice_has_label (v : Vol nx ny nz) (c : ℤ) (z : Fin nz) : Prop :=
  ∃ x y, v x y z = c

instance (v : Vol nx ny nz) (c : ℤ) (z : Fin nz) : Decidable (slice_has_label v c z) := by
  unfold slice_has_label; infer_instance

/-- Embedding of `c in unique_labels` (`np.unique(data_int)`): the volume
contains the label `c` somewhere. -/
def contains_label (v : Vol nx ny nz) (c : ℤ) : Prop :=
  ∃ z, slice_has_label v c z

instance (v : Vol nx ny nz) (c : ℤ) : Decidable (contains_label v c) := by
  unfold contains_label; infer_instance

/-- Z-range intersection step of `process_segmentation` /
`process_spineps_segmentation`: when both label codes occur in the volume,
`data_int[:, :, ~valid_z_slices] = 0` zeroes every axial slice outside
`slices_with_cord & slices_with_canal`; otherwise the step is skipped and the
data is left untouched. -/
def intersect_z (v : Vol nx ny nz) (c1 c2 : ℤ) : Vol nx ny nz :=
  if contains_label v c1 ∧ contains_label v c2 then
    fun x y z => if slice_has_label v c1 z ∧ slice_has_label v c2 z then v x y z else 0
  else v

/-- Cord output voxels: `mask = (data_int == c1)` binarized by
`(mask_data > 0).astype(np.int16)` in `save_mask`. -/
def cord_mask (v : Vol nx ny nz) (c1 c2 : ℤ) : Vol nx ny nz :=
  fun x y z => if intersect_z v c1 c2 x y z = c1 then 1 else 0

/-- Canal output voxels: `mask = (data_int == c2)` binarized in `save_mask`. -/
def canal_mask (v : Vol nx ny nz) (c1 c2 : ℤ) : Vol nx ny nz :=
  fun x y z => if intersect_z v c1 c2 x y z = c2 then 1 else 0

/-- Combined output voxels: `mask = np.isin(data_int, [c1, c2])` binarized in
`save_mask`. -/
def combined_mask (v : Vol nx ny nz) (c1 c2 : ℤ) : Vol nx ny nz :=
  fun x y z => if intersect_z v c1 c2 x y z = c1 ∨ intersect_z v c1 c2 x y z = c2 then 1 else 0

/-- The three images a splitter run writes (cord, canal, combined outputs). -/
structure SplitOutput (nx ny nz : ℕ) where
  cord : Nifti1Image nx ny nz
  canal : Nifti1Image nx ny nz
  combined : Nifti1Image nx ny nz

/-- Embedding of `save_mask` applied to all three requested outputs of
`process_seg.py`'s `process_segmentation` (SCT convention, 1 = cord,
2 = canal): each output gets the input affine and the input header with dtype
forced to int16. -/
def process_segmentation (img : Nifti1Image nx ny nz) : SplitOutput nx ny nz :=
  { cord := ⟨cord_mask img.data 1 2, img.affine, set_data_dtype img.header .int16⟩
    canal := ⟨canal_mask img.data 1 2, img.affine, set_data_dtype img.header .int16⟩
    combined := ⟨combined_mask img.data 1 2, img.affine, set_data_dtype img.header .int16⟩ }

/-- Embedding of `process_spineps_seg.py`'s `process_spineps_segmentation`
(SpinePS convention, 60 = cord, 61 = canal). -/
def process_spineps_segmentation (img : Nifti1Image nx ny nz) : SplitOutput nx ny nz :=
  { cord := ⟨cord_mask img.data 60 61, img.affine, set_data_dtype img.header .int16⟩
    canal := ⟨canal_mask img.data 60 61, img.affine, set_data_dtype img.header .int16⟩
    combined := ⟨combined_mask img.data 60 61, img.affine, set_data_dtype img.header .int16⟩ }

/-- Axial slice `z` of a mask is all-zero. -/
def slice_all_zero (m : Vol nx ny nz) (z : Fin nz) : Prop :=
  ∀ x y, m x y z = 0

instance (m : Vol nx ny nz) (z : Fin nz) : Decidable (slice_all_zero m z) := by
  unfold slice_all_zero; infer_instance

/-- Scalar substitution of SpinePS label codes by SCT label codes: 60 becomes
1 and 61 becomes 2, other values are untouched. -/
def sps_map (a : ℤ) : ℤ :=
  if a = 60 then 1 else if a = 61 then 2 else a

/-- Substitution of SpinePS label codes by SCT label codes on a whole volume,
as in the claimed refinement between the two splitters. -/
def spineps_to_sct (v : Vol nx ny nz) : Vol nx ny nz :=
  fun x y z => sps_map (v x y z)

lemma intersect_z_apply (v : Vol nx ny nz) (c1 c2 : ℤ) (x : Fin nx) (y : Fin ny) (z : Fin nz) :
    intersect_z v c1 c2 x y z =
      if contains_label v c1 ∧ contains_label v c2 then
        (if slice_has_label v c1 z ∧ slice_has_label v c2 z then v x y z else 0)
      else v x y z := by
  unfold intersect_z
  by_cases hC : contains_label v c1 ∧ contains_label v c2
  · rw [if_pos hC, if_pos hC]
  · rw [if_neg hC, if_neg hC]

lemma not_contains_pointwise {v : Vol nx ny nz} {c : ℤ} (h : ¬ contains_label v c) :
    ∀ x y z, v x y z ≠ c :=
  fun x y z hc => h ⟨z, x, y, hc⟩

/-- When both labels occur in the volume, the cord output slice `z` is
all-zero exactly when `z` is outside the Z-range intersection. -/
lemma cord_slice_zero_iff {v : Vol nx ny nz} {c1 c2 : ℤ}
    (h1 : contains_label v c1) (h2 : contains_label v c2) (hc1 : c1 ≠ 0) (z : Fin nz) :
    slice_all_zero (cord_mask v c1 c2) z ↔
      ¬ (slice_has_label v c1 z ∧ slice_has_label v c2 z) := by
  have hC : contains_label v c1 ∧ contains_label v c2 := ⟨h1, h2⟩
  constructor
  · intro hall hval
    obtain ⟨x, y, hxy⟩ := hval.1
    have hx := hall x y
    unfold cord_mask at hx
    rw [intersect_z_apply, if_pos hC, if_pos hval, hxy] at hx
    simp at hx
  · intro hnval x y
    unfold cord_mask
    rw [intersect_z_apply, if_pos hC, if_neg hnval,
      if_neg (fun h : (0 : ℤ) = c1 => hc1 h.symm)]

/-- When both labels occur in the volume, the canal output slice `z` is
all-zero exactly when `z` is outside the Z-range intersection. -/
lemma canal_slice_zero_iff {v : Vol nx ny nz} {c1 c2 : ℤ}
    (h1 : contains_label v c1) (h2 : contains_label v c2) (hc2 : c2 ≠ 0) (z : Fin nz) :
    slice_all_zero (canal_mask v c1 c2) z ↔
      ¬ (slice_has_label v c1 z ∧ slice_has_label v c2 z) := by
  have hC : contains_label v c1 ∧ contains_label v c2 := ⟨h1, h2⟩
  constructor
  · intro hall hval
    obtain ⟨x, y, hxy⟩ := hval.2
    have hx := hall x y
    unfold canal_mask at hx
    rw [intersect_z_apply, if_pos hC, if_pos hval, hxy] at hx
    simp at hx
  · intro hnval x y
    unfold canal_mask
    rw [intersect_z_apply, if_pos hC, if_neg hnval,
      if_neg (fun h : (0 : ℤ) = c2 => hc2 h.symm)]

lemma slice_zero_canal_iff_cord {v : Vol nx ny nz} {c1 c2 : ℤ}
    (h1 : contains_label v c1) (h2 : contains_label v c2)
    (hc1 : c1 ≠ 0) (hc2 : c2 ≠ 0) (z : Fin nz) :
    slice_all_zero (canal_mask v c1 c2) z ↔ slice_all_zero (cord_mask v c1 c2) z :=
  (canal_slice_zero_iff h1 h2 hc2 z).trans (cord_slice_zero_iff h1 h2 hc1 z).symm

lemma combined_eq_or_mask (v : Vol nx ny nz) (c1 c2 : ℤ) (x : Fin nx) (y : Fin ny) (z : Fin nz) :
    combined_mask v c1 c2 x y z =
      if cord_mask v c1 c2 x y z = 1 ∨ canal_mask v c1 c2 x y z = 1 then 1 else 0 := by
  unfold combined_mask cord_mask canal_mask
  by_cases ha : intersect_z v c1 c2 x y z = c1 <;>
    by_cases hb : intersect_z v c1 c2 x y z = c2 <;> simp [ha, hb]

lemma cord_canal_disjoint (v : Vol nx ny nz) {c1 c2 : ℤ} (hne : c1 ≠ c2)
    (x : Fin nx) (y : Fin ny) (z : Fin nz) :
    ¬ (cord_mask v c1 c2 x y z = 1 ∧ canal_mask v c1 c2 x y z = 1) := by
  rintro ⟨hc, hk⟩
  unfold cord_mask at hc
  unfold canal_mask at hk
  by_cases ha : intersect_z v c1 c2 x y z = c1
  · by_cases hb : intersect_z v c1 c2 x y z = c2
    · exact hne (ha.symm.trans hb)
    · rw [if_neg hb] at hk
      exact absurd hk (by decide)
  · rw [if_neg ha] at hc
    exact absurd hc (by decide)

lemma sps_map_eq_one {a : ℤ} (ha : a ≠ 1) : sps_map a = 1 ↔ a = 60 := by
  unfold sps_map
  split_ifs with h60 h61 <;> constructor <;> intro h <;> omega

lemma sps_map_eq_two {a : ℤ} (ha : a ≠ 2) : sps_map a = 2 ↔ a = 61 := by
  unfold sps_map
  split_ifs with h60 h61 <;> constructor <;> intro h <;> omega

lemma slice_sps_one {v : Vol nx ny nz} (hv1 : ∀ x y z, v x y z ≠ 1) (z : Fin nz) :
    slice_has_label (spineps_to_sct v) 1 z ↔ slice_has_label v 60 z := by
  unfold slice_has_label spineps_to_sct
  exact exists_congr fun x => exists_congr fun y => sps_map_eq_one (hv1 x y z)

lemma slice_sps_two {v : Vol nx ny nz} (hv2 : ∀ x y z, v x y z ≠ 2) (z : Fin nz) :
    slice_has_label (spineps_to_sct v) 2 z ↔ slice_has_label v 61 z := by
  unfold slice_has_label spineps_to_sct
  exact exists_congr fun x => exists_congr fun y => sps_map_eq_two (hv2 x y z)

lemma contains_sps_one {v : Vol nx ny nz} (hv1 : ∀ x y z, v x y z ≠ 1) :
    contains_label (spineps_to_sct v) 1 ↔ contains_label v 60 := by
  unfold contains_label
  exact exists_congr fun z => slice_sps_one hv1 z

lemma contains_sps_two {v : Vol nx ny nz} (hv2 : ∀ x y z, v x y z ≠ 2) :
    contains_label (spineps_to_sct v) 2 ↔ contains_label v 61 := by
  unfold contains_label
  exact exists_congr fun z => slice_sps_two hv2 z

lemma intersect_sps {v : Vol nx ny nz} (hv1 : ∀ x y z, v x y z ≠ 1)
    (hv2 : ∀ x y z, v x y z ≠ 2) (x : Fin nx) (y : Fin ny) (z : Fin nz) :
    intersect_z (spineps_to_sct v) 1 2 x y z = sps_map (intersect_z v 60 61 x y z) := by
  rw [intersect_z_apply, intersect_z_apply]
  by_cases hC : contains_label v 60 ∧ contains_label v 61
  · rw [if_pos ((and_congr (contains_sps_one hv1) (contains_sps_two hv2)).mpr hC), if_pos hC]
    by_cases hval : slice_has_label v 60 z ∧ slice_has_label v 61 z
    · rw [if_pos ((and_congr (slice_sps_one hv1 z) (slice_sps_two hv2 z)).mpr hval),
        if_pos hval]
      rfl
    · rw [if_neg (fun h => hval ((and_congr (slice_sps_one hv1 z) (slice_sps_two hv2 z)).mp h)),
        if_neg hval]
      decide
  · rw [if_neg (fun h => hC ((and_congr (contains_sps_one hv1) (contains_sps_two hv2)).mp h)),
      if_neg hC]
    rfl

lemma intersect_ne_one {v : Vol nx ny nz} (hv1 : ∀ x y z, v x y z ≠ 1)
    (x : Fin nx) (y : Fin ny) (z : Fin nz) : intersect_z v 60 61 x y z ≠ 1 := by
  rw [intersect_z_apply]
  split_ifs with hA hB
  · exact hv1 x y z
  · decide
  · exact hv1 x y z

lemma intersect_ne_two {v : Vol nx ny nz} (hv2 : ∀ x y z, v x y z ≠ 2)
    (x : Fin nx) (y : Fin ny) (z : Fin nz) : intersect_z v 60 61 x y z ≠ 2 := by
  rw [intersect_z_apply]
  split_ifs with hA hB
  · exact hv2 x y z
  · decide
  · exact hv2 x y z

lemma cord_mask_sps {v : Vol nx ny nz} (hv1 : ∀ x y z, v x y z ≠ 1)
    (hv2 : ∀ x y z, v x y z ≠ 2) :
    cord_mask (spineps_to_sct v) 1 2 = cord_mask v 60 61 := by
  funext x y z
  unfold cord_mask
  rw [intersect_sps hv1 hv2 x y z]
  exact if_congr (sps_map_eq_one (intersect_ne_one hv1 x y z)) rfl rfl

lemma canal_mask_sps {v : Vol nx ny nz} (hv1 : ∀ x y z, v x y z ≠ 1)
    (hv2 : ∀ x y z, v x y z ≠ 2) :
    canal_mask (spineps_to_sct v) 1 2 = canal_mask v 60 61 := by
  funext x y z
  unfold canal_mask
  rw [intersect_sps hv1 hv2 x y z]
  exact if_congr (sps_map_eq_two (intersect_ne_two hv2 x y z)) rfl rfl

lemma combined_mask_sps {v : Vol nx ny nz} (hv1 : ∀ x y z, v x y z ≠ 1)
    (hv2 : ∀ x y z, v x y z ≠ 2) :
    combined_mask (spineps_to_sct v) 1 2 = combined_mask v 60 61 := by
  funext x y z
  unfold combined_mask
  rw [intersect_sps hv1 hv2 x y z]
  exact if_congr
    (or_congr (sps_map_eq_one (intersect_ne_one hv1 x y z))
      (sps_map_eq_two (intersect_ne_two hv2 x y z))) rfl rfl

end Splitter

/-- Input for the SCT splitter that contains the cord label 1 but not the
canal label 2, so the Z-range intersection step is skipped. -/
def only_cord_img : Nifti1Image 1 1 1 :=
  ⟨fun _ _ _ => 1, fun _ _ => 0, ⟨fun _ => 1, .float64⟩⟩

/-- SCT splitter input containing both labels, on disjoint axial slices. -/
def both_labels_sct_img : Nifti1Image 1 1 2 :=
  ⟨fun _ _ z => if z = 0 then 1 else 2, fun _ _ => 0, ⟨fun _ => 1, .float64⟩⟩

/-- SpinePS splitter input containing both labels, on disjoint axial slices. -/
def both_labels_sps_img : Nifti1Image 1 1 2 :=
  ⟨fun _ _ z => if z = 0 then 60 else 61, fun _ _ => 0, ⟨fun _ => 1, .float64⟩⟩

/-- C1 counterexample: on a 1x1x1 volume whose only voxel is the cord label 1,
`process_segmentation` skips the Z-range intersection (label 2 is absent), so
the canal output slice 0 is all-zero while the cord output slice 0 is not:
the claimed equivalence fails without the both-labels precondition. -/
theorem z_slice_law_counterexample :
    ¬ (slice_all_zero (process_segmentation only_cord_img).canal.data 0 ↔
       slice_all_zero (process_segmentation only_cord_img).cord.data 0) := by
  decide

/-- C1 (amended): for each label splitter, provided the input volume contains
both of that splitter's label codes (1 and 2 for the SCT variant, 60 and 61
for the SpinePS variant), a canal output slice is all-zero exactly when the
corresponding cord output slice is all-zero. -/
theorem splitter_z_slice_law {nx ny nz : ℕ} (img : Nifti1Image nx ny nz) (z : Fin nz) :
    (contains_label img.data 1 → contains_label img.data 2 →
      (slice_all_zero (process_segmentation img).canal.data z ↔
        slice_all_zero (process_segmentation img).cord.data z)) ∧
    (contains_label img.data 60 → contains_label img.data 61 →
      (slice_all_zero (process_spineps_segmentation img).canal.data z ↔
        slice_all_zero (process_spineps_segmentation img).cord.data z)) :=
  ⟨fun h1 h2 => slice_zero_canal_iff_cord h1 h2 (by decide) (by decide) z,
   fun h1 h2 => slice_zero_canal_iff_cord h1 h2 (by decide) (by decide) z⟩

/-- Witness for C1 at concrete inputs that contain both label codes. -/
theorem splitter_z_slice_law_witness :
    (slice_all_zero (process_segmentation both_labels_sct_img).canal.data 0 ↔
      slice_all_zero (process_segmentation both_labels_sct_img).cord.data 0) ∧
    (slice_all_zero (process_spineps_segmentation both_labels_sps_img).canal.data 0 ↔
      slice_all_zero (process_spineps_segmentation both_labels_sps_img).cord.data 0) :=
  ⟨(splitter_z_slice_law both_labels_sct_img 0).1 (by decide) (by decide),
   (splitter_z_slice_law both_labels_sps_img 0).2 (by decide) (by decide)⟩

/-- C2: for each label splitter and every input, the combined output mask is
the voxelwise OR of the cord output mask and the canal output mask (all three
already binarized to 0/1 by `save_mask`). -/
theorem splitter_combined_mask_law {nx ny nz : ℕ} (img : Nifti1Image nx ny nz)
    (x : Fin nx) (y : Fin ny) (z : Fin nz) :
    ((process_segmentation img).combined.data x y z =
      if (process_segmentation img).cord.data x y z = 1 ∨
          (process_segmentation img).canal.data x y z = 1 then 1 else 0) ∧
    ((process_spineps_segmentation img).combined.data x y z =
      if (process_spineps_segmentation img).cord.data x y z = 1 ∨
          (process_spineps_segmentation img).canal.data x y z = 1 then 1 else 0) :=
  ⟨combined_eq_or_mask img.data 1 2 x y z, combined_eq_or_mask img.data 60 61 x y z⟩

/-- C9: for each label splitter, the cord and canal output masks are voxelwise
disjoint: no voxel is 1 in both, since a voxel value equals at most one of the
two label codes. -/
theorem splitter_masks_disjoint {nx ny nz : ℕ} (img : Nifti1Image nx ny nz)
    (x : Fin nx) (y : Fin ny) (z : Fin nz) :
    ¬ ((process_segmentation img).cord.data x y z = 1 ∧
        (process_segmentation img).canal.data x y z = 1) ∧
    ¬ ((process_spineps_segmentation img).cord.data x y z = 1 ∧
        (process_spineps_segmentation img).canal.data x y z = 1) :=
  ⟨cord_canal_disjoint img.data (by decide) x y z,
   cord_canal_disjoint img.data (by decide) x y z⟩

/-- C8: the two splitters implement the same algorithm modulo label constants.
On any input volume with no voxels equal to the SCT codes 1 or 2, running the
SpinePS splitter is the same as substituting 60 by 1 and 61 by 2 and running
the SCT splitter: all three output images agree. -/
theorem spineps_refines_sct {nx ny nz : ℕ} (img : Nifti1Image nx ny nz)
    (h1 : ¬ contains_label img.data 1) (h2 : ¬ contains_label img.data 2) :
    process_spineps_segmentation img =
      process_segmentation ⟨spineps_to_sct img.data, img.affine, img.header⟩ := by
  have hv1 := not_contains_pointwise h1
  have hv2 := not_contains_pointwise h2
  show SplitOutput.mk
      ⟨cord_mask img.data 60 61, img.affine, set_data_dtype img.header .int16⟩
      ⟨canal_mask img.data 60 61, img.affine, set_data_dtype img.header .int16⟩
      ⟨combined_mask img.data 60 61, img.affine, set_data_dtype img.header .int16⟩ =
    SplitOutput.mk
      ⟨cord_mask (spineps_to_sct img.data) 1 2, img.affine, set_data_dtype img.header .int16⟩
      ⟨canal_mask (spineps_to_sct img.data) 1 2, img.affine, set_data_dtype img.header .int16⟩
      ⟨combined_mask (spineps_to_sct img.data) 1 2, img.affine, set_data_dtype img.header .int16⟩
  rw [cord_mask_sps hv1 hv2, canal_mask_sps hv1 hv2, combined_mask_sps hv1 hv2]

/-- The fixed TotalSpineSeg-to-SCT mapping table of `relabel_vertebrae.py`,
in the insertion order of the `label_mapping` dictionary. -/
def label_mapping : List (ℤ × ℤ) :=
  [(11, 1), (12, 2), (13, 3), (14, 4), (15, 5), (16, 6), (17, 7),
   (21, 8), (22, 9), (23, 10), (24, 11), (25, 12), (26, 13),
   (27, 14), (28, 15), (29, 16), (30, 17), (31, 18), (32, 19),
   (41, 20), (42, 21), (43, 22), (44, 23), (45, 24),
   (50, 25)]

/-- Value of one voxel after the relabeling loop of `relabel_nifti`: starting
from 0 (`np.zeros_like`), each `(old, new)` entry, in table order, overwrites
the voxel with `new` whenever the input voxel equals `old`. -/
def relabel_voxel (val : ℤ) : ℤ :=
  label_mapping.foldl (fun acc p => if val = p.1 then p.2 else acc) 0

/-- Embedding of `relabel_nifti`: pointwise relabeling of the volume; the
output image reuses the input affine and header. -/
def relabel_nifti {nx ny nz : ℕ} (img : Nifti1Image nx ny nz) : Nifti1Image nx ny nz :=
  ⟨fun x y z => relabel_voxel (img.data x y z), img.affine, img.header⟩

/-- Mapping table exactly as the claim words it: keys 11-17 map to 1-7, keys
21-32 map to 8-19, keys 41-45 map to 20-24, key 50 maps to 25, and every
non-key (0 included) maps to 0. -/
def claimed_code (l : ℤ) : ℤ :=
  if 11 ≤ l ∧ l ≤ 17 then l - 10
  else if 21 ≤ l ∧ l ≤ 32 then l - 13
  else if 41 ≤ l ∧ l ≤ 45 then l - 21
  else if l = 50 then 25
  else 0

lemma foldl_no_key (val a : ℤ) : ∀ l : List (ℤ × ℤ), (∀ p ∈ l, val ≠ p.1) →
    l.foldl (fun acc p => if val = p.1 then p.2 else acc) a = a
  | [], _ => rfl
  | p :: ps, h => by
    have hne := h p (List.mem_cons_self p ps)
    show List.foldl (fun acc q => if val = q.1 then q.2 else acc)
      (if val = p.1 then p.2 else a) ps = a
    rw [if_neg hne]
    exact foldl_no_key val a ps fun q hq => h q (List.mem_cons_of_mem p hq)

lemma relabel_voxel_eq (val : ℤ) : relabel_voxel val = claimed_code val := by
  by_cases hmem : val ∈ label_mapping.map Prod.fst
  · simp only [label_mapping, List.map_cons, List.map_nil, List.mem_cons,
      List.not_mem_nil, or_false] at hmem
    rcases hmem with rfl | rfl | rfl | rfl | rfl | rfl | rfl | rfl | rfl | rfl | rfl |
      rfl | rfl | rfl | rfl | rfl | rfl | rfl | rfl | rfl | rfl | rfl | rfl | rfl | rfl <;>
      decide
  · have h0 : ∀ p ∈ label_mapping, val ≠ p.1 := by
      intro p hp hput
      exact hmem (by rw [hput]; exact List.mem_map_of_mem Prod.fst hp)
    rw [relabel_voxel, foldl_no_key val 0 label_mapping h0]
    simp only [label_mapping, List.map_cons, List.map_nil, List.mem_cons,
      List.not_mem_nil, or_false] at hmem
    unfold claimed_code
    split_ifs <;> omega

/-- C3: for every volume and voxel, the Vertebral Relabeler sends a value that
is a key of the fixed table to its mapped value and every other value to 0. -/
theorem relabel_totality {nx ny nz : ℕ} (img : Nifti1Image nx ny nz)
    (x : Fin nx) (y : Fin ny) (z : Fin nz) :
    (relabel_nifti img).data x y z = claimed_code (img.data x y z) :=
  relabel_voxel_eq (img.data x y z)

/-- Valid-label test of `filter_disc_labels.py`:
`valid = set(range(1, max_label + 1)) | {60}`. -/
def valid_label (max_label val : ℤ) : Prop :=
  (1 ≤ val ∧ val ≤ max_label) ∨ val = 60

instance (max_label val : ℤ) : Decidable (valid_label max_label val) := by
  unfold valid_label; infer_instance

/-- Value of one voxel after the removal loop of `filter_disc_labels`: a value
that occurs in the volume, is not valid and is not 0 is in `removed` and gets
zeroed; every other value is untouched. (A value equal to the voxel's own is
always "present", so presence adds nothing pointwise.) -/
def filter_voxel (max_label val : ℤ) : ℤ :=
  if ¬ valid_label max_label val ∧ val ≠ 0 then 0 else val

/-- Embedding of `filter_disc_labels`: pointwise removal of out-of-range
labels; the output image reuses the input affine and header. -/
def filter_disc_labels {nx ny nz : ℕ} (max_label : ℤ) (img : Nifti1Image nx ny nz) :
    Nifti1Image nx ny nz :=
  ⟨fun x y z => filter_voxel max_label (img.data x y z), img.affine, img.header⟩

lemma filter_voxel_idem (max_label val : ℤ) :
    filter_voxel max_label (filter_voxel max_label val) = filter_voxel max_label val := by
  unfold filter_voxel
  by_cases h : ¬ valid_label max_label val ∧ val ≠ 0
  · rw [if_pos h]
    simp
  · rw [if_neg h, if_neg h]

/-- C5: the Label Range Filter is idempotent: filtering twice with the same
`max_label` produces the same image as filtering once. -/
theorem filter_disc_labels_idempotent {nx ny nz : ℕ} (max_label : ℤ)
    (img : Nifti1Image nx ny nz) :
    filter_disc_labels max_label (filter_disc_labels max_label img) =
      filter_disc_labels max_label img := by
  show Nifti1Image.mk
      (fun x y z => filter_voxel max_label (filter_voxel max_label (img.data x y z)))
      img.affine img.header =
    Nifti1Image.mk (fun x y z => filter_voxel max_label (img.data x y z))
      img.affine img.header
  rw [funext fun x => funext fun y => funext fun z => filter_voxel_idem max_label (img.data x y z)]

/-- C6: every image-writing tool (Label Range Filter, Vertebral Relabeler and
the three outputs of each of the two Label Splitters) preserves the input
affine and the input header zooms exactly. -/
theorem geometry_preserved {nx ny nz : ℕ} (max_label : ℤ) (img : Nifti1Image nx ny nz) :
    (filter_disc_labels max_label img).affine = img.affine ∧
    (filter_disc_labels max_label img).header.zooms = img.header.zooms ∧
    (relabel_nifti img).affine = img.affine ∧
    (relabel_nifti img).header.zooms = img.header.zooms ∧
    (process_segmentation img).cord.affine = img.affine ∧
    (process_segmentation img).cord.header.zooms = img.header.zooms ∧
    (process_segmentation img).canal.affine = img.affine ∧
    (process_segmentation img).canal.header.zooms = img.header.zooms ∧
    (process_segmentation img).combined.affine = img.affine ∧
    (process_segmentation img).combined.header.zooms = img.header.zooms ∧
    (process_spineps_segmentation img).cord.affine = img.affine ∧
    (process_spineps_segmentation img).cord.header.zooms = img.header.zooms ∧
    (process_spineps_segmentation img).canal.affine = img.affine ∧
    (process_spineps_segmentation img).canal.header.zooms = img.header.zooms ∧
    (process_spineps_segmentation img).combined.affine = img.affine ∧
    (process_spineps_segmentation img).combined.header.zooms = img.header.zooms :=
  ⟨rfl, rfl, rfl, rfl, rfl, rfl, rfl, rfl, rfl, rfl, rfl, rfl, rfl, rfl, rfl, rfl⟩

/-- Vertebral-level cell of one CSV data row, as read by
`record.get("VertLevel", record.get("vertLevel", -1))` followed by `int(...)`:
the cell can be absent, parse to an integer, or fail to parse. -/
inductive LevelCell where
  | missing
  | intVal (n : ℤ)
  | unparsable
  deriving DecidableEq

/-- One data row of a per-subject CSV: its vertebral-level cell and the value
of the configured info column. -/
structure CSVRecord where
  level : LevelCell
  value : String
  deriving DecidableEq

/-- One candidate input file of `parse_method_directory`: the BIDS ids its
name carries, whether its name ends in the `_<measure_type>.csv` pattern,
whether `pd.read_csv` succeeds, whether the configured info column is present,
and its data rows. -/
structure CSVFile where
  subject_id : String
  session_id : String
  endswith_pattern : Bool
  readable : Bool
  has_info_column : Bool
  records : List CSVRecord
  deriving DecidableEq

/-- One output row: the BIDS ids plus the pivoted level columns, an insertion
ordered association list from level number (the column `level{n}` is
represented by its embedded integer `n`) to the stored value. -/
structure SubjectRow where
  subject_id : String
  session_id : String
  levels : List (ℤ × String)
  deriving DecidableEq

/-- Embedding of `int(record.get("VertLevel", record.get("vertLevel", -1)))`:
a missing cell defaults to -1, an integer cell parses to its value, and any
unparsable cell raises `ValueError` (the error case), which nothing catches. -/
def to_int_level : LevelCell → Except Unit ℤ
  | .missing => .ok (-1)
  | .intVal n => .ok n
  | .unparsable => .error ()

/-- Python dict assignment `row[f"level{level}"] = value`: overwrite in place
when the key is already present, otherwise append, keeping insertion order. -/
def dict_insert (l : List (ℤ × String)) (k : ℤ) (v : String) : List (ℤ × String) :=
  if l.any (fun p => p.1 == k) then l.map (fun p => if p.1 == k then (k, v) else p)
  else l ++ [(k, v)]

/-- Per-file pivot loop of `parse_method_directory`: for each data row, parse
the level (a `ValueError` propagates and aborts); a positive level stores the
info-column value under the `level{n}` key; any other row is skipped. -/
def pivot_levels : List (ℤ × String) → List CSVRecord → Except Unit (List (ℤ × String))
  | acc, [] => .ok acc
  | acc, r :: rs =>
    match to_int_level r.level with
    | .error e => .error e
    | .ok n => pivot_levels (if 0 < n then dict_insert acc n r.value else acc) rs

/-- A file contributes a row exactly when its name matches the measure-type
pattern, pandas can read it, and the configured info column is present; every
other file is skipped with a warning. -/
def file_contributes (f : CSVFile) : Bool :=
  f.endswith_pattern && f.readable && f.has_info_column

/-- File loop of `parse_method_directory`: skipped files contribute nothing, a
contributing file appends exactly one row, and an uncaught `ValueError` from
the pivot aborts the whole run. -/
def parse_rows : List CSVFile → Except Unit (List SubjectRow)
  | [] => .ok []
  | f :: fs =>
    if file_contributes f then
      match pivot_levels [] f.records with
      | .error e => .error e
      | .ok lv =>
        match parse_rows fs with
        | .error e => .error e
        | .ok rs => .ok (⟨f.subject_id, f.session_id, lv⟩ :: rs)
    else parse_rows fs

/-- Level columns discovered across the pivoted rows, in order of appearance
(the DataFrame column set is the union of the row dict keys). -/
def level_keys_list (rows : List SubjectRow) : List ℤ :=
  rows.foldr (fun r acc => r.levels.map Prod.fst ++ acc) []

/-- The emitted level-column order: the discovered level columns deduplicated
and sorted by their embedded integer, ascending. -/
def level_cols (rows : List SubjectRow) : List ℤ :=
  List.insertionSort (· ≤ ·) (level_keys_list rows).dedup

/-- Embedding of `parse_method_directory`: `none` is the empty DataFrame
returned when no file contributed a row; otherwise the result carries the
sorted level columns (`subject_id` and `session_id` always precede them,
which the model keeps structural) and the subject rows. -/
def parse_method_directory (files : List CSVFile) :
    Except Unit (Option (List ℤ × List SubjectRow)) :=
  match parse_rows files with
  | .error e => .error e
  | .ok rows => .ok (if rows.isEmpty then none else some (level_cols rows, rows))

/-- Positive vertebral levels appearing among a list of data rows. -/
def seen_records (recs : List CSVRecord) : Finset ℤ :=
  (recs.filterMap (fun r =>
    match r.level with
    | .intVal n => if 0 < n then some n else none
    | _ => none)).toFinset

/-- Positive vertebral levels seen among one input file's data rows, as the
claim words it. -/
def seen_levels (f : CSVFile) : Finset ℤ :=
  seen_records f.records

/-- Union of the positive vertebral levels seen across all contributing input
files, as the claim words it. -/
def seen_union (files : List CSVFile) : Finset ℤ :=
  files.foldr (fun f s => if file_contributes f then seen_levels f ∪ s else s) ∅

/-- Level columns of the single row a file contributes: the pivot result, or
nothing when the pivot raises. -/
def levels_of (f : CSVFile) : List (ℤ × String) :=
  match pivot_levels [] f.records with
  | .ok l => l
  | .error _ => []

/-- Witness for C8 at a concrete SpinePS volume containing labels 60 and 61
and no voxels equal to 1 or 2. -/
theorem spineps_refines_sct_witness :
    ¬ contains_label both_labels_sps_img.data 1 ∧
    ¬ contains_label both_labels_sps_img.data 2 ∧
    process_spineps_segmentation both_labels_sps_img =
      process_segmentation
        ⟨spineps_to_sct both_labels_sps_img.data, both_labels_sps_img.affine,
          both_labels_sps_img.header⟩ :=
  ⟨by decide, by decide, spineps_refines_sct both_labels_sps_img (by decide) (by decide)⟩

lemma pivot_levels_cons_ok (acc : List (ℤ × String)) (rs : List CSVRecord)
    (lvl : LevelCell) (val : String) (n : ℤ) (h : to_int_level lvl = .ok n) :
    pivot_levels acc (⟨lvl, val⟩ :: rs) =
      pivot_levels (if 0 < n then dict_insert acc n val else acc) rs := by
  show (match to_int_level lvl with
    | .error e => Except.error e
    | .ok m => pivot_levels (if 0 < m then dict_insert acc m val else acc) rs) =
    pivot_levels (if 0 < n then dict_insert acc n val else acc) rs
  rw [h]

lemma pivot_levels_cons_err (acc : List (ℤ × String)) (rs : List CSVRecord)
    (val : String) (lvl : LevelCell) (h : to_int_level lvl = .error ()) :
    pivot_levels acc (⟨lvl, val⟩ :: rs) = .error () := by
  show (match to_int_level lvl with
    | .error e => Except.error e
    | .ok m => pivot_levels (if 0 < m then dict_insert acc m val else acc) rs) =
    Except.error ()
  rw [h]

lemma dict_insert_keys (l : List (ℤ × String)) (k : ℤ) (v : String) :
    ((dict_insert l k v).map Prod.fst).toFinset = insert k (l.map Prod.fst).toFinset := by
  unfold dict_insert
  by_cases h : l.any (fun p => p.1 == k) = true
  · rw [if_pos h, List.map_map]
    have hcomp : Prod.fst ∘ (fun p : ℤ × String => if p.1 == k then (k, v) else p) =
        Prod.fst := by
      funext p
      show (if p.1 == k then (k, v) else p).1 = p.1
      by_cases hp : (p.1 == k) = true
      · rw [if_pos hp]
        exact (eq_of_beq hp).symm
      · rw [if_neg hp]
    rw [hcomp]
    have hk : k ∈ (l.map Prod.fst).toFinset := by
      rw [List.any_eq_true] at h
      obtain ⟨p, hp, hpk⟩ := h
      rw [List.mem_toFinset, List.mem_map]
      exact ⟨p, hp, eq_of_beq hpk⟩
    exact (Finset.insert_eq_self.mpr hk).symm
  · rw [if_neg h, List.map_append, List.toFinset_append]
    ext a
    simp [or_comm]

lemma pivot_levels_keys : ∀ (recs : List CSVRecord) (acc l : List (ℤ × String)),
    pivot_levels acc recs = .ok l →
    (l.map Prod.fst).toFinset = (acc.map Prod.fst).toFinset ∪ seen_records recs := by
  intro recs
  induction recs with
  | nil =>
    intro acc l h
    injection h with h2
    subst h2
    simp [seen_records]
  | cons r rs ih =>
    intro acc l h
    obtain ⟨lvl, val⟩ := r
    cases lvl with
    | missing =>
      rw [pivot_levels_cons_ok acc rs .missing val (-1) rfl,
        if_neg (by norm_num : ¬ (0 : ℤ) < -1)] at h
      have hseen : seen_records (CSVRecord.mk .missing val :: rs) = seen_records rs := rfl
      rw [hseen]
      exact ih acc l h
    | intVal n =>
      rw [pivot_levels_cons_ok acc rs (.intVal n) val n rfl] at h
      by_cases hn : 0 < n
      · rw [if_pos hn] at h
        have hkeys := ih (dict_insert acc n val) l h
        rw [hkeys, dict_insert_keys]
        have hseen : seen_records (CSVRecord.mk (.intVal n) val :: rs) =
            insert n (seen_records rs) := by
          simp [seen_records, List.filterMap_cons, hn]
        rw [hseen]
        ext a
        simp only [Finset.mem_union, Finset.mem_insert]
        tauto
      · rw [if_neg hn] at h
        have hseen : seen_records (CSVRecord.mk (.intVal n) val :: rs) = seen_records rs := by
          simp [seen_records, List.filterMap_cons, hn]
        rw [hseen]
        exact ih acc l h
    | unparsable =>
      rw [pivot_levels_cons_err acc rs val .unparsable rfl] at h
      simp at h

lemma parse_rows_cons_err (f : CSVFile) (fs : List CSVFile) (e : Unit)
    (hc : file_contributes f = true) (hp : pivot_levels [] f.records = .error e) :
    parse_rows (f :: fs) = .error e := by
  unfold parse_rows
  rw [if_pos hc, hp]

lemma parse_rows_cons_true (f : CSVFile) (fs : List CSVFile) (lv : List (ℤ × String))
    (hc : file_contributes f = true) (hp : pivot_levels [] f.records = .ok lv) :
    parse_rows (f :: fs) = (match parse_rows fs with
      | .error e => .error e
      | .ok rs => .ok (⟨f.subject_id, f.session_id, lv⟩ :: rs)) := by
  show (if file_contributes f = true then
      match pivot_levels [] f.records with
      | .error e => Except.error e
      | .ok lv =>
        match parse_rows fs with
        | .error e => Except.error e
        | .ok rs => Except.ok (⟨f.subject_id, f.session_id, lv⟩ :: rs)
    else parse_rows fs) =
    (match parse_rows fs with
      | .error e => Except.error e
      | .ok rs => Except.ok (⟨f.subject_id, f.session_id, lv⟩ :: rs))
  rw [if_pos hc, hp]

lemma parse_rows_cons_false (f : CSVFile) (fs : List CSVFile)
    (hc : file_contributes f = false) :
    parse_rows (f :: fs) = parse_rows fs := by
  show (if file_contributes f = true then
      match pivot_levels [] f.records with
      | .error e => Except.error e
      | .ok lv =>
        match parse_rows fs with
        | .error e => Except.error e
        | .ok rs => Except.ok (⟨f.subject_id, f.session_id, lv⟩ :: rs)
    else parse_rows fs) = parse_rows fs
  rw [if_neg (by simp [hc])]

lemma seen_union_cons_true (f : CSVFile) (fs : List CSVFile)
    (hc : file_contributes f = true) :
    seen_union (f :: fs) = seen_levels f ∪ seen_union fs := by
  show (if file_contributes f then seen_levels f ∪ seen_union fs else seen_union fs) = _
  rw [if_pos hc]

lemma seen_union_cons_false (f : CSVFile) (fs : List CSVFile)
    (hc : file_contributes f = false) :
    seen_union (f :: fs) = seen_union fs := by
  show (if file_contributes f then seen_levels f ∪ seen_union fs else seen_union fs) = _
  rw [if_neg (by simp [hc])]

lemma parse_rows_keys : ∀ (files : List CSVFile) (rows : List SubjectRow),
    parse_rows files = .ok rows → (level_keys_list rows).toFinset = seen_union files := by
  intro files
  induction files with
  | nil =>
    intro rows h
    injection h with h2
    subst h2
    simp [level_keys_list, seen_union]
  | cons f fs ih =>
    intro rows h
    by_cases hc : file_contributes f = true
    · cases hp : pivot_levels [] f.records with
      | error e =>
        rw [parse_rows_cons_err f fs e hc hp] at h
        simp at h
      | ok lv =>
        rw [parse_rows_cons_true f fs lv hc hp] at h
        cases hr : parse_rows fs with
        | error e =>
          rw [hr] at h
          simp at h
        | ok rs =>
          rw [hr] at h
          have h2 : Except.ok (SubjectRow.mk f.subject_id f.session_id lv :: rs) =
              (Except.ok rows : Except Unit (List SubjectRow)) := h
          injection h2 with h3
          subst h3
          have hlv := pivot_levels_keys f.records [] lv hp
          have hrest := ih rs hr
          rw [seen_union_cons_true f fs hc]
          show ((SubjectRow.mk f.subject_id f.session_id lv).levels.map Prod.fst ++
            level_keys_list rs).toFinset = seen_levels f ∪ seen_union fs
          rw [List.toFinset_append, hrest]
          simp only [List.map_nil, List.toFinset_nil, Finset.empty_union] at hlv
          rw [hlv]
          rfl
    · have hc2 : file_contributes f = false := by
        cases hcc : file_contributes f
        · rfl
        · exact absurd hcc hc
      rw [parse_rows_cons_false f fs hc2] at h
      rw [seen_union_cons_false f fs hc2]
      exact ih rows h

/-- C4: whenever `parse_method_directory` emits a table, its level columns are
sorted ascending by their embedded integer and are exactly the union of the
positive vertebral levels seen across the contributing input files (the model
keeps the leading `subject_id`, `session_id` columns structural in the table
type, so the level columns are the whole variable part of the column list). -/
theorem aggregator_level_columns (files : List CSVFile) (cols : List ℤ)
    (rows : List SubjectRow)
    (h : parse_method_directory files = .ok (some (cols, rows))) :
    List.Sorted (· < ·) cols ∧ cols.toFinset = seen_union files := by
  unfold parse_method_directory at h
  cases hp : parse_rows files with
  | error e =>
    rw [hp] at h
    simp at h
  | ok rows0 =>
    rw [hp] at h
    have h2 : Except.ok (ε := Unit)
        (if rows0.isEmpty then none else some (level_cols rows0, rows0)) =
        Except.ok (some (cols, rows)) := h
    by_cases he : rows0.isEmpty
    · rw [if_pos he] at h2
      simp at h2
    · rw [if_neg he] at h2
      injection h2 with h3
      injection h3 with h4
      injection h4 with hcols hrows
      subst hcols
      constructor
      · have hs := List.sorted_insertionSort (· ≤ ·) (level_keys_list rows0).dedup
        have hnd : (List.insertionSort (· ≤ ·) (level_keys_list rows0).dedup).Nodup :=
          ((List.perm_insertionSort (· ≤ ·) _).nodup_iff).mpr (List.nodup_dedup _)
        exact List.Sorted.lt_of_le hs hnd
      · show (List.insertionSort (· ≤ ·) (level_keys_list rows0).dedup).toFinset =
          seen_union files
        rw [List.toFinset_eq_of_perm _ _ (List.perm_insertionSort (· ≤ ·) _),
          List.toFinset.ext fun a => List.mem_dedup]
        exact parse_rows_keys files rows0 hp

/-- Input files for the C4 witness: two contributing subjects, one with level
3 (plus one skipped non-positive row), one with level 2. -/
def c4_files : List CSVFile :=
  [⟨"01", "01", true, true, true, [⟨.intVal 3, "71.2"⟩, ⟨.intVal (-1), "0"⟩]⟩,
   ⟨"02", "01", true, true, true, [⟨.intVal 2, "65.4"⟩]⟩]

/-- Rows the aggregator produces for `c4_files`. -/
def c4_rows : List SubjectRow :=
  [⟨"01", "01", [(3, "71.2")]⟩, ⟨"02", "01", [(2, "65.4")]⟩]

/-- Witness for C4: on `c4_files` the emitted level columns are `[2, 3]`,
sorted ascending and equal to the union of the seen positive levels. -/
theorem aggregator_level_columns_witness :
    List.Sorted (· < ·) ([2, 3] : List ℤ) ∧
      ([2, 3] : List ℤ).toFinset = seen_union c4_files :=
  aggregator_level_columns c4_files [2, 3] c4_rows rfl

/-- C7 counterexample input: one contributing file with a single data row
whose vertebral-level cell does not parse as an integer. -/
def unparsable_file : CSVFile :=
  ⟨"03", "01", true, true, true, [⟨.unparsable, "5.5"⟩]⟩

/-- C7 counterexample: the claim says a row with an unparsable vertebral level
is silently ignored and processing continues; on `unparsable_file` the code
instead raises an uncaught `ValueError` from `int(...)` (only `pd.read_csv`
is inside the `try`), so the whole run aborts with an error and no table. -/
theorem aggregator_unparsable_counterexample :
    parse_method_directory [unparsable_file] = .error () := rfl

/-- C7 (amended): a data row whose vertebral level parses to a non-positive
integer (including the -1 default when the level column is missing) is
silently ignored, with processing of the remaining rows continuing unchanged;
a row whose level cell is unparsable instead raises an uncaught error that
aborts processing. -/
theorem aggregator_nonpositive_skipped (acc : List (ℤ × String))
    (rs : List CSVRecord) (val : String) (lvl : LevelCell) (n : ℤ) :
    (to_int_level lvl = .ok n → n ≤ 0 →
      pivot_levels acc (⟨lvl, val⟩ :: rs) = pivot_levels acc rs) ∧
    pivot_levels acc (⟨.unparsable, val⟩ :: rs) = .error () := by
  constructor
  · intro hok hn
    rw [pivot_levels_cons_ok acc rs lvl val n hok, if_neg (by omega : ¬ 0 < n)]
  · exact pivot_levels_cons_err acc rs val .unparsable rfl

/-- Witness for C7 at a concrete zero-level row and a concrete unparsable
row. -/
theorem aggregator_nonpositive_skipped_witness :
    pivot_levels [] [CSVRecord.mk (.intVal 0) "2.2"] = pivot_levels [] [] ∧
    pivot_levels [] [CSVRecord.mk .unparsable "2.2"] = .error () :=
  ⟨(aggregator_nonpositive_skipped [] [] "2.2" (.intVal 0) 0).1 rfl (le_refl 0),
   (aggregator_nonpositive_skipped [] [] "2.2" (.intVal 0) 0).2⟩

lemma pivot_nonpos : ∀ (recs : List CSVRecord) (acc : List (ℤ × String)),
    (∀ r ∈ recs, ∀ n, to_int_level r.level = .ok n → n ≤ 0) →
    pivot_levels acc recs = .ok acc ∨ pivot_levels acc recs = .error () := by
  intro recs
  induction recs with
  | nil =>
    intro acc h
    left
    rfl
  | cons r rs ih =>
    intro acc h
    obtain ⟨lvl, val⟩ := r
    cases lvl with
    | missing =>
      rw [pivot_levels_cons_ok acc rs .missing val (-1) rfl,
        if_neg (by norm_num : ¬ (0 : ℤ) < -1)]
      exact ih acc fun r hr => h r (List.mem_cons_of_mem _ hr)
    | intVal n =>
      have hn : n ≤ 0 := h ⟨.intVal n, val⟩ (List.mem_cons_self _ _) n rfl
      rw [pivot_levels_cons_ok acc rs (.intVal n) val n rfl,
        if_neg (by omega : ¬ 0 < n)]
      exact ih acc fun r hr => h r (List.mem_cons_of_mem _ hr)
    | unparsable =>
      right
      exact pivot_levels_cons_err acc rs val .unparsable rfl

lemma levels_of_empty (f : CSVFile)
    (h : ∀ r ∈ f.records, ∀ n, to_int_level r.level = .ok n → n ≤ 0) :
    levels_of f = [] := by
  unfold levels_of
  rcases pivot_nonpos f.records [] h with hok | herr
  · rw [hok]
  · rw [herr]

/-- C10: whenever the run succeeds, the emitted rows are exactly one row per
contributing file, in file order, carrying that file's subject and session
ids and its pivoted levels; and a contributing file none of whose data rows
has a positive vertebral level still contributes its row, with every level
column empty. -/
theorem aggregator_row_per_file (files : List CSVFile) (rows : List SubjectRow)
    (h : parse_rows files = .ok rows) :
    rows = (files.filter (fun f => file_contributes f)).map
        (fun f => SubjectRow.mk f.subject_id f.session_id (levels_of f)) ∧
    ∀ f ∈ files, file_contributes f = true →
      (∀ r ∈ f.records, ∀ n, to_int_level r.level = .ok n → n ≤ 0) →
      levels_of f = [] := by
  constructor
  · induction files generalizing rows with
    | nil =>
      injection h with h2
      subst h2
      rfl
    | cons f fs ih =>
      by_cases hc : file_contributes f = true
      · cases hp : pivot_levels [] f.records with
        | error e =>
          rw [parse_rows_cons_err f fs e hc hp] at h
          simp at h
        | ok lv =>
          rw [parse_rows_cons_true f fs lv hc hp] at h
          cases hr : parse_rows fs with
          | error e =>
            rw [hr] at h
            simp at h
          | ok rs =>
            rw [hr] at h
            have h2 : Except.ok (SubjectRow.mk f.subject_id f.session_id lv :: rs) =
                (Except.ok rows : Except Unit (List SubjectRow)) := h
            injection h2 with h3
            subst h3
            rw [List.filter_cons_of_pos hc, List.map_cons]
            have hlv : levels_of f = lv := by
              unfold levels_of
              rw [hp]
            rw [hlv, ih rs hr]
      · have hc2 : file_contributes f = false := by
          cases hcc : file_contributes f
          · rfl
          · exact absurd hcc hc
        rw [parse_rows_cons_false f fs hc2] at h
        rw [List.filter_cons_of_neg (by simp [hc2])]
        exact ih rows h
  · intro f _ _ hnp
    exact levels_of_empty f hnp

/-- C10 witness input: a contributing file whose two data rows both have
non-positive levels. -/
def c10_file : CSVFile :=
  ⟨"05", "02", true, true, true, [⟨.intVal (-2), "9.9"⟩, ⟨.missing, "8.8"⟩]⟩

/-- C10 witness input: a file skipped because the info column is missing. -/
def c10_skip : CSVFile :=
  ⟨"06", "02", true, true, false, [⟨.intVal 4, "1.0"⟩]⟩

/-- Witness for C10: the no-positive-level subject still gets exactly one row,
with its ids and an empty level list; the skipped file gets none. -/
theorem aggregator_row_per_file_witness :
    ([SubjectRow.mk "05" "02" []] =
      ([c10_file, c10_skip].filter (fun f => file_contributes f)).map
        (fun f => SubjectRow.mk f.subject_id f.session_id (levels_of f))) ∧
    levels_of c10_file = [] := by
  have h := aggregator_row_per_file [c10_file, c10_skip]
    [SubjectRow.mk "05" "02" []] rfl
  refine ⟨h.1, h.2 c10_file (List.mem_cons_self _ _) rfl ?_⟩
  intro r hr n hn
  simp only [c10_file, List.mem_cons, List.not_mem_nil, or_false] at hr
  rcases hr with rfl | rfl
  · injection hn with h2
    omega
  · injection hn with h2
    omega
